import Mathlib

/-!
Verification of the `rlm` repository's REPL-protocol layer against its
natural-language specification.

The development shallowly embeds the functions of `src/rlm/utils/parsing.py`
and the constructor of `src/rlm/environments/prime_repl.py`.  Python strings
are Lean `String`s (one `Char` per code point), Python runtime values are the
inductive `PyVal`, a Python `dict` is an insertion-ordered association list
with unique keys, and a raised Python exception is `Except.error`.

The two regular expressions of `parsing.py` are embedded as explicit
backtracking scanners over `List Char` whose semantics follow Python's `re`:
leftmost match wins, `MULTILINE` makes `^` match after every newline, greedy
pieces backtrack from the longest candidate, lazy pieces from the shortest.
-/

namespace RLM

/-- A Python runtime value, as far as the analyzed code inspects one.
`float` is abstracted by its textual representation (no arithmetic on floats
occurs in the analyzed code); `other` stands for any value that is none of
the simple built-in types (function, module, custom object, ...) and carries
its `str()` form. -/
inductive PyVal where
  | str (s : String)
  | int (n : Int)
  | bool (b : Bool)
  | float (repr : String)
  | list (elems : List PyVal)
  | dict (entries : List (String × PyVal))
  | tuple (elems : List PyVal)
  | none
  | other (shown : String)

/-- `isinstance(value, str | int | float | bool | list | dict | tuple)` from
`format_execution_result` (src/rlm/utils/parsing.py). -/
def is_simple_type : PyVal → Bool
  | .str _ | .int _ | .bool _ | .float _ | .list _ | .dict _ | .tuple _ => true
  | .none | .other _ => false

/-- `isinstance(v, dict)`. -/
def is_dict : PyVal → Bool
  | .dict _ => true
  | _ => false

/-- Python `d.get(key, default)` on a dict modelled as an association list. -/
def dict_get_default (d : List (String × PyVal)) (key : String) (default : PyVal) : PyVal :=
  match d.find? (fun kv => kv.1 = key) with
  | some kv => kv.2
  | Option.none => default

/-- Coarse model of Python `str(value)`.  Faithful on the scalar values the
analyzed code ever stringifies; container and foreign values are abstracted
(`other` and `float` carry their own display form).  No theorem below depends
on `py_str` beyond totality. -/
def py_str : PyVal → String
  | .str s => s
  | .int n => toString n
  | .bool b => if b then "True" else "False"
  | .float r => r
  | .none => "None"
  | .list _ => "<list>"
  | .dict _ => "<dict>"
  | .tuple _ => "<tuple>"
  | .other shown => shown

/-- The characters of Python's `str.strip()` / regex `\s` (ASCII range):
space, tab, newline, carriage return, vertical tab, form feed. -/
def is_py_space (c : Char) : Bool :=
  c = ' ' || c = '\t' || c = '\n' || c = '\r' || c = Char.ofNat 11 || c = Char.ofNat 12

/-- Strip leading and trailing characters satisfying `p` (Python
`str.strip(chars)`). -/
def strip_list (p : Char → Bool) (l : List Char) : List Char :=
  ((l.dropWhile p).reverse.dropWhile p).reverse

/-- Python `s.strip(chars)` on `String`. -/
def py_strip_on (p : Char → Bool) (s : String) : String :=
  String.mk (strip_list p s.data)

/-- Python `s.strip()` (whitespace). -/
def py_strip (s : String) : String :=
  py_strip_on is_py_space s

/-- Python `s.startswith(pre)`. -/
def py_startswith (s pre : String) : Bool :=
  pre.data.isPrefixOf s.data

/-- Python `s[:n]`. -/
def py_slice_to (s : String) (n : Nat) : String :=
  String.mk (s.data.take n)

/-- A single-quote character, written via its code point. -/
def squote : String :=
  String.singleton (Char.ofNat 39)

/-- Python `sep.join(parts)`. -/
def py_join (sep : String) : List String → String
  | [] => ""
  | [x] => x
  | x :: y :: rest => x ++ sep ++ py_join sep (y :: rest)

/-! ## `find_final_answer` (src/rlm/utils/parsing.py lines 25-42)

`re.search(r"^\s*FINAL_VAR\((.*?)\)", text, re.MULTILINE | re.DOTALL)`:
with `MULTILINE`, `^` matches at the start of the text and after every
newline, so the pattern matches exactly at a marker occurrence that is
preceded, back to some line start, only by whitespace.  For a fixed line
start the whitespace run ends at the first non-whitespace character, which
must begin the literal marker, and the lazy group captures up to the first
`)` after it; `re.search` returns the leftmost such match.  The scanner
below walks the text once, keeping the flag "everything since the last line
start is whitespace", and at the first marker occurrence where the flag
holds captures up to the first closing parenthesis.  When no closing
parenthesis follows that occurrence, none follows any later occurrence
either (a later suffix is contained in this one), so continuing the walk
returns the same result as the regex engine's failure. -/

/-- The characters before the first `)` of the list, or `none` when the list
has no `)`: the lazy group `(.*?)\)` under `DOTALL`. -/
def take_before_rparen : List Char → Option (List Char)
  | [] => Option.none
  | c :: cs =>
    if c = ')' then some []
    else match take_before_rparen cs with
      | some g => some (c :: g)
      | Option.none => Option.none

/-- Flag update of the scanner: after reading `ch`, is every character since
the last line start whitespace? -/
def next_flag (flag : Bool) (ch : Char) : Bool :=
  if ch = '\n' then true else if is_py_space ch then flag else false

/-- Scan for the leftmost occurrence of `m` preceded, back to some line
start, only by whitespace (`^\s*m` under `MULTILINE`) and return the lazy
capture up to the first following `)`. -/
def search_marker_go (m : List Char) : List Char → Bool → Option (List Char)
  | [], _ => Option.none
  | ch :: cs, flag =>
    if flag && m.isPrefixOf (ch :: cs) then
      match take_before_rparen ((ch :: cs).drop m.length) with
      | some g => some g
      | Option.none => search_marker_go m cs (next_flag flag ch)
    else search_marker_go m cs (next_flag flag ch)

/-- `re.search(r"^\s*" + marker + r"\((.*?)\)", text, re.MULTILINE | re.DOTALL)`
restricted to the captured group, for a literal `marker`. -/
def search_marker (marker : String) (text : String) : Option String :=
  (search_marker_go (marker.data ++ ['(']) text.data true).map String.mk

/-- `find_final_answer` of src/rlm/utils/parsing.py: the `FINAL_VAR` pattern
is searched first, the `FINAL` pattern only when it found nothing, and the
captured group is whitespace-stripped. -/
def find_final_answer (text : String) : Option (String × String) :=
  match search_marker "FINAL_VAR" text with
  | some g => some ("FINAL_VAR", py_strip g)
  | Option.none =>
    match search_marker "FINAL" text with
    | some g => some ("FINAL", py_strip g)
    | Option.none => Option.none

/-! ## `find_code_blocks` (src/rlm/utils/parsing.py lines 10-22)

`re.finditer(r"```repl\s*\n(.*?)\n```", text, re.DOTALL)`: matches are
non-overlapping, found scanning left to right.  At a candidate position the
literal ```` ```repl ```` must match, then greedy `\s*\n` consumes a
whitespace run ending at a newline — the greedy engine tries the newlines of
the maximal whitespace run from last to first — then the lazy `(.*?)\n```` ```
captures up to the earliest following ```` \n``` ````.  Each captured group
is `strip()`ped and appended, and scanning resumes after the match. -/

/-- Index of the earliest occurrence of `pat` in `s` (Python `s.find(pat)`),
as used for the lazy `(.*?)` followed by a literal. -/
def find_sublist (pat : List Char) : List Char → Option Nat
  | [] => if pat.isEmpty then some 0 else Option.none
  | c :: cs =>
    if pat.isPrefixOf (c :: cs) then some 0
    else (find_sublist pat cs).map (· + 1)

/-- Try to match `` ```repl\s*\n(.*?)\n``` `` at the head of `s`; on success
return the captured group and the rest of the text after the match. -/
def try_match_block (s : List Char) : Option (List Char × List Char) :=
  if ("```repl".data).isPrefixOf s then
    let rest := s.drop ("```repl".data.length)
    let run := rest.takeWhile is_py_space
    let candidates := ((List.range run.length).filter
      (fun q => run.get? q = some '\n')).reverse
    candidates.findSome? (fun q =>
      let remaining := rest.drop (q + 1)
      match find_sublist ("\n```".data) remaining with
      | some k => some (remaining.take k, remaining.drop (k + 4))
      | Option.none => Option.none)
  else Option.none

/-- One pass of `re.finditer`: at each position try the block pattern; on a
match, strip and collect the group and resume after the match; otherwise
advance one character.  `fuel` bounds the walk (every step consumes at least
one character, so `s.length` suffices). -/
def scan_blocks : Nat → List Char → List (List Char)
  | 0, _ => []
  | _, [] => []
  | fuel + 1, s =>
    match try_match_block s with
    | some (captured, rest) => strip_list is_py_space captured :: scan_blocks fuel rest
    | Option.none => scan_blocks fuel (s.drop 1)

/-- `find_code_blocks` of src/rlm/utils/parsing.py.  The Python docstring's
"Returns None if no code blocks are found" is stale: the function always
returns a list, empty when nothing matches. -/
def find_code_blocks (text : String) : List String :=
  (scan_blocks text.data.length text.data).map String.mk

/-! ## Data shapes

`rlm/core/types.py` is not among the analyzed sources; the shapes below are
modelled from the spec (§3 "REPL Result", "Iteration"; §6 "REPL Result
shape", "Iteration message shape") and from the field accesses in
src/rlm/utils/parsing.py (`result.stdout`, `result.stderr`, `result.locals`,
`iteration.response`, `iteration.code_blocks`, `code_block.code`,
`code_block.result`). -/

/-- One execution outcome: captured stdout, captured stderr, and the
namespace snapshot (`{stdout: text, stderr: text, locals: mapping}`). -/
structure REPLResult where
  stdout : String
  stderr : String
  locals : List (String × PyVal)

/-- One `{role, content}` record of the next-turn message sequence. -/
structure Message where
  role : String
  content : String
deriving DecidableEq

/-- One executed code block of an iteration: the fragment and its result. -/
structure CodeBlock where
  code : String
  result : REPLResult

/-- One agent turn: the raw model response and the executed blocks in
order. -/
structure RLMIteration where
  response : String
  code_blocks : List CodeBlock

/-! ## `format_execution_result` (src/rlm/utils/parsing.py lines 85-115) -/

/-- The keys the `for key, value in result.locals.items()` loop of
`format_execution_result` collects into `important_vars`, in insertion
order: name not starting with `_`, name not one of the three dunder names
(redundant with the first test, kept as in the source), value of a simple
built-in type. -/
def important_var_names (locals_map : List (String × PyVal)) : List String :=
  (locals_map.filter (fun kv =>
    !(py_startswith kv.1 "_") &&
    !(["__builtins__", "__name__", "__doc__"].contains kv.1) &&
    is_simple_type kv.2)).map Prod.fst

/-- Python `str` of a list of strings, `['a', 'b']`, as produced by
`f"REPL variables: {list(important_vars.keys())}"` (variable names contain
no quote characters, so `repr` of each is the name between single
quotes). -/
def py_str_list_repr (names : List String) : String :=
  "[" ++ py_join ", " (names.map (fun n => squote ++ n ++ squote)) ++ "]"

/-- `format_execution_result` of src/rlm/utils/parsing.py: the successive
conditional appends to `result_parts`, then
`"\n\n".join(result_parts) if result_parts else "No output"`. -/
def format_execution_result (result : REPLResult) : String :=
  let result_parts : List String := []
  let result_parts := if result.stdout ≠ "" then result_parts ++ ["\n" ++ result.stdout]
    else result_parts
  let result_parts := if result.stderr ≠ "" then result_parts ++ ["\n" ++ result.stderr]
    else result_parts
  let important_vars := important_var_names result.locals
  let result_parts := if important_vars ≠ [] then
      result_parts ++ ["REPL variables: " ++ py_str_list_repr important_vars ++ "\n"]
    else result_parts
  if result_parts ≠ [] then py_join "\n\n" result_parts else "No output"

/-! ## `format_iteration` (src/rlm/utils/parsing.py lines 45-77) -/

/-- `format_iteration` of src/rlm/utils/parsing.py.  In the source
`max_character_length` defaults to `20000`; here it is an explicit
argument.  The loop body formats each block's result, truncates it to
`max_character_length` characters with an omitted-character marker when it
is longer, and appends one user message per block after the assistant
message holding the raw response. -/
def format_iteration (iteration : RLMIteration) (max_character_length : Nat) : List Message :=
  let messages : List Message := [{ role := "assistant", content := iteration.response }]
  messages ++ iteration.code_blocks.map (fun code_block =>
    let code := code_block.code
    let result := format_execution_result code_block.result
    let result := if result.length > max_character_length then
        py_slice_to result max_character_length ++
          "... + [" ++ toString (result.length - max_character_length) ++ " chars...]"
      else result
    { role := "user",
      content := "Code executed:\n```python\n" ++ code ++ "\n```\n\nREPL output:\n" ++ result })

/-! ## `check_for_final_answer` (src/rlm/utils/parsing.py lines 118-148)

The Python function receives the REPL environment (only its `locals` dict is
read) and a logger (only `logger.log_tool_execution(tool, message)` is
called).  The environment is modelled by its locals mapping and the logger
by the list of `(tool, message)` pairs passed to it, returned alongside the
function's value.  The `try`/`except` around the lookup cannot fire in this
model (a dict lookup guarded by a membership test raises nothing), matching
the Python control flow on every input reaching it. -/

/-- The variable-name cleanup of `check_for_final_answer`:
`content.strip().strip('"').strip("'").strip("\n").strip("\r")`. -/
def strip_variable_name (content : String) : String :=
  py_strip_on (fun c => c = '\r')
    (py_strip_on (fun c => c = '\n')
      (py_strip_on (fun c => c = Char.ofNat 39)
        (py_strip_on (fun c => c = '"')
          (py_strip content))))

/-- `check_for_final_answer` of src/rlm/utils/parsing.py: the returned value
and the `(tool, message)` pairs logged during the call. -/
def check_for_final_answer (response : String) (repl_locals : List (String × PyVal)) :
    Option String × List (String × String) :=
  match find_final_answer response with
  | Option.none => (Option.none, [])
  | some (answer_type, content) =>
    if answer_type = "FINAL" then (some content, [])
    else if answer_type = "FINAL_VAR" then
      let variable_name := strip_variable_name content
      match repl_locals.find? (fun kv => kv.1 = variable_name) with
      | some kv => (some (py_str kv.2), [])
      | Option.none =>
        (Option.none,
          [("FINAL_VAR",
            "Variable " ++ squote ++ variable_name ++ squote ++
              " not found in REPL environment")])
    else (Option.none, [])

/-! ## `convert_context_for_repl` (src/rlm/utils/parsing.py lines 151-175) -/

/-- The `msg.get("content", "")` of the message-record branch, as a total
function: on a non-dict element the Python comprehension raises
`AttributeError` (handled by `Except` in `convert_context_for_repl`); the
non-dict value here is a dummy never reached under that guard. -/
def content_of (msg : PyVal) : PyVal :=
  match msg with
  | .dict md => dict_get_default md "content" (.str "")
  | _ => .str ""

/-- Does the first element of the payload list exist, is it a dict, and does
it have a `"content"` key (`len(context) > 0 and isinstance(context[0], dict)`
and `"content" in context[0]`)? -/
def first_has_content : List PyVal → Bool
  | .dict d :: _ => (d.map Prod.fst).contains "content"
  | _ => false

/-- `convert_context_for_repl` of src/rlm/utils/parsing.py, returning the
`(context_data, context_str)` pair; `Except.error` models the
`AttributeError` the comprehension `[msg.get("content", "") for msg in
context]` raises when some element is not a dict. -/
def convert_context_for_repl (context : PyVal) :
    Except String (Option PyVal × Option String) :=
  match context with
  | .dict _ => .ok (some context, Option.none)
  | .str s => .ok (Option.none, some s)
  | .list xs =>
    match xs with
    | [] => .ok (some context, Option.none)
    | first :: _ =>
      match first with
      | .dict d =>
        if (d.map Prod.fst).contains "content" then
          match xs.mapM (fun msg =>
            match msg with
            | .dict md => Except.ok (dict_get_default md "content" (.str ""))
            | _ => Except.error "AttributeError") with
          | .ok ys => .ok (some (.list ys), Option.none)
          | .error e => .error e
        else .ok (some context, Option.none)
      | _ => .ok (some context, Option.none)
  | _ => .ok (some context, Option.none)

/-! ## `PrimeREPL.__init__` (src/rlm/environments/prime_repl.py lines 5-18) -/

/-- The fields `PrimeREPL.__init__` receives; `persistent` and the base
class's stored flag coincide (the guard fires before `super().__init__`). -/
structure PrimeREPL where
  lm_handler_address : Option (String × Nat)
  context_payload : Option PyVal
  sandbox_name : Option String
  api_key : Option String
  persistent : Bool

/-- `PrimeREPL.__init__`: `persistent=True` raises `NotImplementedError`
before `super().__init__` runs; otherwise construction succeeds and the base
class stores the flag.  `Except.error` carries the exception's message. -/
def primerepl_init (lm_handler_address : Option (String × Nat))
    (context_payload : Option PyVal) (sandbox_name api_key : Option String)
    (persistent : Bool) : Except String PrimeREPL :=
  if persistent then
    .error "Persistent REPLs are currently not supported for environment: PrimeREPL"
  else
    .ok { lm_handler_address := lm_handler_address, context_payload := context_payload,
          sandbox_name := sandbox_name, api_key := api_key, persistent := persistent }

/-! ## Declarative descriptions used by the theorems -/

/-- The sections of a formatted result, declaratively: the non-empty stdout
section, the non-empty stderr section, and the variable-names line when some
user-visible binding of simple type exists. -/
def result_sections (r : REPLResult) : List String :=
  (if r.stdout = "" then [] else ["\n" ++ r.stdout]) ++
  (if r.stderr = "" then [] else ["\n" ++ r.stderr]) ++
  (if important_var_names r.locals = [] then []
   else ["REPL variables: " ++ py_str_list_repr (important_var_names r.locals) ++ "\n"])

/-- "Everything between some line start and the current position is
whitespace", as a predicate on the characters `a` before the position; the
`flag = true` disjunct admits the start of the text as a line start.  This is
where `^\s*` can match under `re.MULTILINE`. -/
def flag_ok (flag : Bool) (a : List Char) : Prop :=
  (flag = true ∧ ∀ ch ∈ a, is_py_space ch = true) ∨
  ∃ a0 ws, a = a0 ++ '\n' :: ws ∧ ∀ ch ∈ ws, is_py_space ch = true

/-- The text contains a complete `marker(...)` form whose marker is
preceded, back to some line start, only by whitespace — the declarative
reading of "the marker is present at the beginning of a line". -/
def line_start_marker (marker text : String) : Prop :=
  ∃ a c d, text.data = a ++ (marker.data ++ ['(']) ++ c ++ ')' :: d ∧ flag_ok true a

/-! ## Helper lemmas -/

lemma py_join_cons (sep x : String) (rest : List String) :
    ∃ t, py_join sep (x :: rest) = x ++ t := by
  cases rest with
  | nil => exact ⟨"", by simp [py_join, String.append_empty]⟩
  | cons y ys => exact ⟨sep ++ py_join sep (y :: ys), String.append_assoc x sep _⟩

lemma newline_append_ne (v : String) : "\n" ++ v ≠ "No output" := by
  intro h
  have h' : '\n' :: v.data = 'N' :: "o output".data := congrArg String.data h
  exact absurd (List.cons.inj h').1 (by decide)

lemma repl_vars_append_ne (v : String) : "REPL variables: " ++ v ≠ "No output" := by
  intro h
  have h' : 'R' :: ("EPL variables: " ++ v).data = 'N' :: "o output".data :=
    congrArg String.data h
  exact absurd (List.cons.inj h').1 (by decide)

lemma join_first_ne_no_output (x : String) (rest : List String)
    (hx : (∃ v, x = "\n" ++ v) ∨ ∃ v, x = "REPL variables: " ++ v) :
    py_join "\n\n" (x :: rest) ≠ "No output" := by
  obtain ⟨t, ht⟩ := py_join_cons "\n\n" x rest
  rw [ht]
  rcases hx with ⟨v, rfl⟩ | ⟨v, rfl⟩
  · rw [String.append_assoc]; exact newline_append_ne _
  · rw [String.append_assoc]; exact repl_vars_append_ne _

lemma format_execution_result_eq (r : REPLResult) :
    format_execution_result r =
      if result_sections r = [] then "No output" else py_join "\n\n" (result_sections r) := by
  unfold format_execution_result result_sections
  by_cases h1 : r.stdout = "" <;> by_cases h2 : r.stderr = "" <;>
    by_cases h3 : important_var_names r.locals = [] <;>
      simp [h1, h2, h3]

lemma assoc_value_unique {locals_map : List (String × PyVal)}
    (hnd : (locals_map.map Prod.fst).Nodup) :
    ∀ {k : String} {v v' : PyVal}, (k, v) ∈ locals_map → (k, v') ∈ locals_map → v = v' := by
  induction locals_map with
  | nil => intro k v v' h _; cases h
  | cons kv rest ih =>
    rw [List.map_cons, List.nodup_cons] at hnd
    intro k v v' h1 h2
    rcases List.mem_cons.mp h1 with h1 | h1 <;> rcases List.mem_cons.mp h2 with h2 | h2
    · exact congrArg Prod.snd (h1.trans h2.symm)
    · exfalso
      have hmem : k ∈ rest.map Prod.fst := List.mem_map.mpr ⟨(k, v'), h2, rfl⟩
      apply hnd.1
      rw [← h1]
      exact hmem
    · exfalso
      have hmem : k ∈ rest.map Prod.fst := List.mem_map.mpr ⟨(k, v), h1, rfl⟩
      apply hnd.1
      rw [← h2]
      exact hmem
    · exact ih hnd.2 h1 h2

lemma take_before_rparen_eq_some :
    ∀ {t g : List Char}, take_before_rparen t = some g → ∃ d, t = g ++ ')' :: d := by
  intro t
  induction t with
  | nil => intro g h; simp [take_before_rparen] at h
  | cons c cs ih =>
    intro g h
    by_cases hc : c = ')'
    · subst hc
      simp only [take_before_rparen, if_pos rfl] at h
      obtain rfl : ([] : List Char) = g := Option.some.inj h
      exact ⟨cs, rfl⟩
    · simp only [take_before_rparen, if_neg hc] at h
      cases h' : take_before_rparen cs with
      | none => rw [h'] at h; simp at h
      | some g' =>
        rw [h'] at h
        obtain rfl : c :: g' = g := Option.some.inj h
        obtain ⟨d, hd⟩ := ih h'
        exact ⟨d, by rw [hd]; simp⟩

lemma take_before_rparen_eq_none :
    ∀ {t : List Char}, take_before_rparen t = Option.none → ∀ ch ∈ t, ch ≠ ')' := by
  intro t
  induction t with
  | nil => intro _ ch hch; cases hch
  | cons c cs ih =>
    intro h ch hch
    by_cases hc : c = ')'
    · subst hc; simp only [take_before_rparen, if_pos rfl] at h; simp at h
    · simp only [take_before_rparen, if_neg hc] at h
      cases h' : take_before_rparen cs with
      | some g' => rw [h'] at h; simp at h
      | none =>
        rcases List.mem_cons.mp hch with rfl | hch'
        · exact hc
        · exact ih h' ch hch'

lemma flag_ok_nil {flag : Bool} : flag_ok flag [] ↔ flag = true := by
  constructor
  · rintro (⟨h, -⟩ | ⟨a0, ws, h, -⟩)
    · exact h
    · exfalso; cases a0 <;> simp at h
  · intro h; exact Or.inl ⟨h, by simp⟩

lemma flag_ok_cons {flag : Bool} {ch : Char} {a' : List Char} :
    flag_ok flag (ch :: a') ↔ flag_ok (next_flag flag ch) a' := by
  constructor
  · rintro (⟨hf, hws⟩ | ⟨a0, ws, heq, hws⟩)
    · subst hf
      have hch : is_py_space ch = true := hws ch (List.mem_cons_self _ _)
      have hnf : next_flag true ch = true := by
        unfold next_flag
        by_cases h : ch = '\n'
        · simp [h]
        · simp [h, hch]
      rw [hnf]
      exact Or.inl ⟨rfl, fun c hc => hws c (List.mem_cons_of_mem _ hc)⟩
    · cases a0 with
      | nil =>
        have heq' : ch :: a' = '\n' :: ws := by simpa using heq
        obtain ⟨rfl, rfl⟩ := List.cons_eq_cons.mp heq'
        have hnf : next_flag flag '\n' = true := by simp [next_flag]
        rw [hnf]
        exact Or.inl ⟨rfl, hws⟩
      | cons c0 a0' =>
        have heq' : ch :: a' = c0 :: (a0' ++ '\n' :: ws) := by simpa using heq
        obtain ⟨rfl, rfl⟩ := List.cons_eq_cons.mp heq'
        exact Or.inr ⟨a0', ws, rfl, hws⟩
  · rintro (⟨hnf, hws⟩ | ⟨a0, ws, heq, hws⟩)
    · unfold next_flag at hnf
      by_cases h1 : ch = '\n'
      · subst h1
        exact Or.inr ⟨[], a', rfl, hws⟩
      · rw [if_neg h1] at hnf
        by_cases h2 : is_py_space ch = true
        · rw [if_pos h2] at hnf
          refine Or.inl ⟨hnf, ?_⟩
          intro c hc
          rcases List.mem_cons.mp hc with rfl | hc'
          · exact h2
          · exact hws c hc'
        · rw [if_neg h2] at hnf; simp at hnf
    · exact Or.inr ⟨ch :: a0, ws, by rw [heq]; rfl, hws⟩

lemma search_marker_go_isSome_iff (m : List Char) (hp : (')' : Char) ∉ m) :
    ∀ (s : List Char) (flag : Bool),
      (search_marker_go m s flag).isSome = true ↔
        ∃ a c d, s = a ++ m ++ c ++ ')' :: d ∧ flag_ok flag a := by
  intro s
  induction s with
  | nil =>
    intro flag
    constructor
    · intro h; simp [search_marker_go] at h
    · rintro ⟨a, c, d, h, -⟩
      have hlen := congrArg List.length h
      simp [List.length_append] at hlen
      exfalso
      omega
  | cons ch cs ih =>
    intro flag
    by_cases hcond : (flag && m.isPrefixOf (ch :: cs)) = true
    · have hand := hcond
      rw [Bool.and_eq_true] at hand
      obtain ⟨hflag, hpre⟩ := hand
      obtain ⟨rest, hrest⟩ := List.isPrefixOf_iff_prefix.mp hpre
      have hdrop : (ch :: cs).drop m.length = rest := by
        rw [← hrest]; exact List.drop_left m rest
      cases htb : take_before_rparen rest with
      | some g =>
        have hL : (search_marker_go m (ch :: cs) flag).isSome = true := by
          simp only [search_marker_go]
          rw [if_pos hcond, hdrop, htb]
          rfl
        refine iff_of_true hL ?_
        obtain ⟨d, hd⟩ := take_before_rparen_eq_some htb
        exact ⟨[], g, d, by rw [← hrest, hd]; simp, flag_ok_nil.mpr hflag⟩
      | none =>
        have hnein : (')' : Char) ∉ (ch :: cs) := by
          intro hin
          rw [← hrest] at hin
          rcases List.mem_append.mp hin with h' | h'
          · exact hp h'
          · exact take_before_rparen_eq_none htb ')' h' rfl
        have hL : search_marker_go m (ch :: cs) flag =
            search_marker_go m cs (next_flag flag ch) := by
          simp only [search_marker_go]
          rw [if_pos hcond, hdrop, htb]
        rw [hL, ih (next_flag flag ch)]
        constructor
        · rintro ⟨a, c, d, hcs, -⟩
          exact absurd (List.mem_cons_of_mem ch (show (')' : Char) ∈ cs by rw [hcs]; simp))
            hnein
        · rintro ⟨a, c, d, hdec, -⟩
          exact absurd (show (')' : Char) ∈ ch :: cs by rw [hdec]; simp) hnein
    · have hL : search_marker_go m (ch :: cs) flag =
          search_marker_go m cs (next_flag flag ch) := by
        simp only [search_marker_go]
        rw [if_neg hcond]
      rw [hL, ih (next_flag flag ch)]
      constructor
      · rintro ⟨a', c, d, hcs, hok⟩
        exact ⟨ch :: a', c, d, by rw [hcs]; rfl, flag_ok_cons.mpr hok⟩
      · rintro ⟨a, c, d, hdec, hok⟩
        cases a with
        | nil =>
          exfalso
          apply hcond
          have hflag : flag = true := flag_ok_nil.mp hok
          have hpre : m.isPrefixOf (ch :: cs) = true := by
            rw [List.isPrefixOf_iff_prefix]
            exact ⟨c ++ ')' :: d, by rw [hdec]; simp⟩
          simp [hflag, hpre]
        | cons c0 a' =>
          have hdec' : ch :: cs = c0 :: (a' ++ m ++ c ++ ')' :: d) := by simpa using hdec
          obtain ⟨rfl, rfl⟩ := List.cons_eq_cons.mp hdec'
          exact ⟨a', c, d, rfl, flag_ok_cons.mp hok⟩

lemma search_marker_isSome_iff (marker text : String)
    (hp : (')' : Char) ∉ marker.data) :
    (search_marker marker text).isSome = true ↔ line_start_marker marker text := by
  unfold search_marker line_start_marker
  rw [Option.isSome_map']
  refine search_marker_go_isSome_iff (marker.data ++ ['(']) ?_ text.data true
  intro h
  rcases List.mem_append.mp h with h' | h'
  · exact hp h'
  · simp at h'

lemma dropWhile_length_le (p : Char → Bool) : ∀ l : List Char, (l.dropWhile p).length ≤ l.length := by
  intro l
  induction l with
  | nil => simp
  | cons a l ih =>
    by_cases h : p a
    · rw [List.dropWhile_cons_of_pos h]; exact Nat.le_succ_of_le ih
    · rw [List.dropWhile_cons_of_neg h]

lemma dropWhile_fix_of_prefix {p : Char → Bool} {x y : List Char}
    (hx : x.dropWhile p = x) (hyx : y <+: x) : y.dropWhile p = y := by
  cases y with
  | nil => rfl
  | cons a ys =>
    obtain ⟨t, ht⟩ := hyx
    have hx' : ((a :: ys) ++ t).dropWhile p = (a :: ys) ++ t := by rw [ht, hx]
    by_cases hpa : p a
    · exfalso
      rw [List.cons_append, List.dropWhile_cons_of_pos hpa] at hx'
      have hlen := congrArg List.length hx'
      rw [List.length_cons] at hlen
      have hle := dropWhile_length_le p (ys ++ t)
      omega
    · rw [List.dropWhile_cons_of_neg hpa]

lemma strip_list_idem (p : Char → Bool) (l : List Char) :
    strip_list p (strip_list p l) = strip_list p l := by
  have hxfix : (l.dropWhile p).dropWhile p = l.dropWhile p := List.dropWhile_idempotent p _
  have h1 : ((l.dropWhile p).reverse.dropWhile p).reverse <+:
      ((l.dropWhile p).reverse).reverse :=
    List.reverse_prefix.mpr (List.dropWhile_suffix p)
  rw [List.reverse_reverse] at h1
  have hyfix := dropWhile_fix_of_prefix hxfix h1
  unfold strip_list
  rw [hyfix, List.reverse_reverse, List.dropWhile_idempotent]

lemma scan_blocks_stripped :
    ∀ (fuel : Nat) (s : List Char), ∀ b ∈ scan_blocks fuel s,
      strip_list is_py_space b = b := by
  intro fuel
  induction fuel with
  | zero => intro s b hb; simp [scan_blocks] at hb
  | succ n ih =>
    intro s b hb
    cases s with
    | nil => simp [scan_blocks] at hb
    | cons c cs =>
      simp only [scan_blocks] at hb
      cases h : try_match_block (c :: cs) with
      | some pr =>
        rw [h] at hb
        obtain ⟨cap, rest⟩ := pr
        rcases List.mem_cons.mp hb with rfl | hb'
        · exact strip_list_idem _ _
        · exact ih rest b hb'
      | none =>
        rw [h] at hb
        exact ih _ b hb

lemma format_iteration_get_succ (iteration : RLMIteration)
    (max_character_length i : Nat) (cb : CodeBlock)
    (hget : iteration.code_blocks.get? i = some cb) :
    (format_iteration iteration max_character_length).get? (i + 1) =
      some { role := "user",
             content := "Code executed:\n```python\n" ++ cb.code ++
               "\n```\n\nREPL output:\n" ++
               (if (format_execution_result cb.result).length > max_character_length then
                  py_slice_to (format_execution_result cb.result) max_character_length ++
                    "... + [" ++
                    toString ((format_execution_result cb.result).length -
                      max_character_length) ++ " chars...]"
                else format_execution_result cb.result) } := by
  simp only [format_iteration, List.singleton_append, List.get?_cons_succ, List.get?_map,
    hget, Option.map_some']

lemma is_dict_eq {m : PyVal} (h : is_dict m = true) : ∃ d, m = PyVal.dict d := by
  cases m <;> simp [is_dict] at h ⊢

lemma mapM_content_ok :
    ∀ (xs : List PyVal), (∀ m ∈ xs, is_dict m = true) →
      xs.mapM (fun msg =>
        match msg with
        | PyVal.dict md => Except.ok (dict_get_default md "content" (.str ""))
        | _ => (Except.error "AttributeError" : Except String PyVal)) =
      Except.ok (xs.map content_of) := by
  intro xs
  induction xs with
  | nil => intro _; rfl
  | cons m ms ih =>
    intro h
    obtain ⟨md, rfl⟩ := is_dict_eq (h m (List.mem_cons_self _ _))
    rw [List.mapM_cons, ih (fun x hx => h x (List.mem_cons_of_mem _ hx))]
    rfl

/-! ## Claim theorems -/

/-- **C1** (corrected).  `find_final_answer("FINAL_VAR(\"answer\")\n")` returns
`("FINAL_VAR", "\"answer\"")`: the captured variable name is stripped of
surrounding whitespace only, and the quote characters are retained — they are
stripped later, by `check_for_final_answer`, before the namespace lookup
(third conjunct).  On text containing neither marker the function returns
nothing. -/
theorem find_final_answer_quote_handling :
    find_final_answer "FINAL_VAR(\"answer\")\n" = some ("FINAL_VAR", "\"answer\"") ∧
    find_final_answer "no marker here" = Option.none ∧
    strip_variable_name "\"answer\"" = "answer" :=
  ⟨by decide, by decide, by decide⟩

/-- **C1** counterexample: contrary to the claim, the pair returned for
`FINAL_VAR("answer")\n` is not `("FINAL_VAR", "answer")` — the captured name
keeps its surrounding quotes. -/
theorem find_final_answer_keeps_quotes :
    find_final_answer "FINAL_VAR(\"answer\")\n" ≠ some ("FINAL_VAR", "answer") := by
  decide

/-- **C2** (corrected).  The formatted result is the `"\n\n"`-join of the
non-empty stdout section, the non-empty stderr section, and the variable-names
line; the names line is present iff at least one binding whose name does not
begin with `_` **and whose value is of a simple built-in type** exists
(`important_var_names`); the result is exactly `"No output"` iff no section
applies. -/
theorem format_execution_result_spec (r : REPLResult) :
    format_execution_result r =
      (if result_sections r = [] then "No output"
       else py_join "\n\n" (result_sections r)) ∧
    (format_execution_result r = "No output" ↔
      r.stdout = "" ∧ r.stderr = "" ∧ important_var_names r.locals = []) := by
  refine ⟨format_execution_result_eq r, ?_, ?_⟩
  · intro h
    rw [format_execution_result_eq r] at h
    by_cases h1 : r.stdout = "" <;> by_cases h2 : r.stderr = "" <;>
      by_cases h3 : important_var_names r.locals = []
    · exact ⟨h1, h2, h3⟩
    · exfalso
      simp only [result_sections, h1, h2, h3] at h
      simp at h
      exact join_first_ne_no_output _ _
        (Or.inr ⟨py_str_list_repr (important_var_names r.locals) ++ "\n",
          String.append_assoc _ _ _⟩) h
    · exfalso
      simp only [result_sections, h1, h2, h3] at h
      simp at h
      exact join_first_ne_no_output _ _ (Or.inl ⟨r.stderr, rfl⟩) h
    · exfalso
      simp only [result_sections, h1, h2, h3] at h
      simp at h
      exact join_first_ne_no_output _ _ (Or.inl ⟨r.stderr, rfl⟩) h
    · exfalso
      simp only [result_sections, h1, h2, h3] at h
      simp at h
      exact join_first_ne_no_output _ _ (Or.inl ⟨r.stdout, rfl⟩) h
    · exfalso
      simp only [result_sections, h1, h2, h3] at h
      simp at h
      exact join_first_ne_no_output _ _ (Or.inl ⟨r.stdout, rfl⟩) h
    · exfalso
      simp only [result_sections, h1, h2, h3] at h
      simp at h
      exact join_first_ne_no_output _ _ (Or.inl ⟨r.stdout, rfl⟩) h
    · exfalso
      simp only [result_sections, h1, h2, h3] at h
      simp at h
      exact join_first_ne_no_output _ _ (Or.inl ⟨r.stdout, rfl⟩) h
  · rintro ⟨h1, h2, h3⟩
    rw [format_execution_result_eq r]
    simp [result_sections, h1, h2, h3]

/-- **C2** counterexample: a binding whose name does not begin with `_` but
whose value is not of a simple built-in type (here a function) produces no
variable-names line — the formatted result is the bare placeholder, although
the claim's iff requires a names line whenever any non-underscore binding
exists. -/
theorem names_line_needs_simple_type :
    format_execution_result ⟨"", "", [("f", PyVal.other "function")]⟩ = "No output" ∧
    py_startswith "f" "_" = false :=
  ⟨by decide, by decide⟩

/-- **C3** (amended).  When the model response declares `FINAL_VAR` and the
(quote-stripped) referenced name is absent from the environment's locals,
`check_for_final_answer` raises no fault: it reports the miss as a textual
error message passed to the logger (`log_tool_execution`) and returns no
answer (`None`) — the miss text goes to the log, not into the returned
value. -/
theorem check_for_final_answer_missing_var (response content : String)
    (repl_locals : List (String × PyVal))
    (h1 : find_final_answer response = some ("FINAL_VAR", content))
    (h2 : repl_locals.find? (fun kv => kv.1 = strip_variable_name content) = Option.none) :
    check_for_final_answer response repl_locals =
      (Option.none,
        [("FINAL_VAR",
          "Variable " ++ squote ++ strip_variable_name content ++ squote ++
            " not found in REPL environment")]) := by
  unfold check_for_final_answer
  rw [h1]
  simp [h2]

/-- Witness for **C3**: a concrete miss, evaluated. -/
theorem check_for_final_answer_missing_var_witness :
    check_for_final_answer "FINAL_VAR(result)\n" [("x", PyVal.int 1)] =
      (Option.none,
        [("FINAL_VAR",
          "Variable " ++ squote ++ "result" ++ squote ++
            " not found in REPL environment")]) :=
  check_for_final_answer_missing_var "FINAL_VAR(result)\n" "result"
    [("x", PyVal.int 1)] (by decide) rfl

/-- **C3** counterexample: at a concrete miss the returned value is `None` —
it embeds no textual content; the miss text is passed to the logger
instead. -/
theorem check_for_final_answer_miss_not_in_value :
    check_for_final_answer "FINAL_VAR(result)\n" [] =
      (Option.none,
        [("FINAL_VAR",
          "Variable " ++ squote ++ "result" ++ squote ++
            " not found in REPL environment")]) := by
  decide

/-- **C4** (confirmed).  When both a line-start `FINAL_VAR(...)` form and a
line-start `FINAL(...)` form are present in the text, `find_final_answer`
returns the variable-reference form, regardless of which appears earlier
(the `FINAL_VAR` pattern is searched over the whole text first); and any
returned answer comes from a marker occurrence preceded, back to a line
start, only by whitespace — both forms match only at the beginning of a
line. -/
theorem final_var_takes_precedence :
    (∀ text : String, line_start_marker "FINAL_VAR" text → line_start_marker "FINAL" text →
      ∃ c, find_final_answer text = some ("FINAL_VAR", c)) ∧
    (∀ text k c : String, find_final_answer text = some (k, c) →
      (k = "FINAL_VAR" ∧ line_start_marker "FINAL_VAR" text) ∨
      (k = "FINAL" ∧ line_start_marker "FINAL" text)) := by
  have hVAR : (')' : Char) ∉ ("FINAL_VAR" : String).data := by decide
  have hFIN : (')' : Char) ∉ ("FINAL" : String).data := by decide
  constructor
  · intro text hvar _hfin
    have h := (search_marker_isSome_iff "FINAL_VAR" text hVAR).mpr hvar
    obtain ⟨g, hg⟩ := Option.isSome_iff_exists.mp h
    exact ⟨py_strip g, by unfold find_final_answer; rw [hg]⟩
  · intro text k c h
    unfold find_final_answer at h
    cases hv : search_marker "FINAL_VAR" text with
    | some g =>
      rw [hv] at h
      simp only [] at h
      left
      have h' := Option.some.inj h
      rw [Prod.mk.injEq] at h'
      exact ⟨h'.1.symm,
        (search_marker_isSome_iff "FINAL_VAR" text hVAR).mp (by rw [hv]; rfl)⟩
    | none =>
      rw [hv] at h
      simp only [] at h
      cases hf : search_marker "FINAL" text with
      | some g =>
        rw [hf] at h
        simp only [] at h
        right
        have h' := Option.some.inj h
        rw [Prod.mk.injEq] at h'
        exact ⟨h'.1.symm,
          (search_marker_isSome_iff "FINAL" text hFIN).mp (by rw [hf]; rfl)⟩
      | none =>
        rw [hf] at h
        exact Option.noConfusion h

/-- Witness for **C4**: a text in which the literal `FINAL` marker appears
first still yields the variable-reference form. -/
theorem final_var_takes_precedence_witness :
    ∃ c, find_final_answer "FINAL(42)\nFINAL_VAR(x)\n" = some ("FINAL_VAR", c) :=
  final_var_takes_precedence.1 "FINAL(42)\nFINAL_VAR(x)\n"
    ((search_marker_isSome_iff "FINAL_VAR" _ (by decide)).mp (by decide))
    ((search_marker_isSome_iff "FINAL" _ (by decide)).mp (by decide))

/-- **C10** (confirmed).  The variable-names line lists only bindings of
simple built-in type: a non-underscore binding to any other value never
appears in `important_var_names` (for a locals mapping with unique keys, as a
Python dict has), and when every non-underscore binding has such a value and
stdout and stderr are empty, the formatted result is the `"No output"`
placeholder. -/
theorem important_vars_simple_only (r : REPLResult) :
    ((r.locals.map Prod.fst).Nodup →
      ∀ k v, (k, v) ∈ r.locals → is_simple_type v = false →
        k ∉ important_var_names r.locals) ∧
    ((∀ k v, (k, v) ∈ r.locals → py_startswith k "_" = false → is_simple_type v = false) →
      r.stdout = "" → r.stderr = "" → format_execution_result r = "No output") := by
  constructor
  · intro hnd k v hmem hns hk
    unfold important_var_names at hk
    obtain ⟨⟨k', v'⟩, hin, rfl⟩ := List.mem_map.mp hk
    obtain ⟨hmem', hp⟩ := List.mem_filter.mp hin
    rw [Bool.and_eq_true, Bool.and_eq_true] at hp
    have hsimple : is_simple_type v' = true := hp.2
    have hv : v = v' := assoc_value_unique hnd hmem hmem'
    rw [hv] at hns
    simp [hns] at hsimple
  · intro hall h1 h2
    have h3 : important_var_names r.locals = [] := by
      unfold important_var_names
      rw [List.map_eq_nil, List.filter_eq_nil]
      rintro ⟨k, v⟩ hkv hp
      rw [Bool.and_eq_true, Bool.and_eq_true] at hp
      obtain ⟨⟨hu, _⟩, hs⟩ := hp
      have hu' : py_startswith k "_" = false := by simpa using hu
      have := hall k v hkv hu'
      simp [this] at hs
    rw [format_execution_result_eq r]
    simp [result_sections, h1, h2, h3]

/-- Witness for **C10**: a concrete function-valued binding is excluded and
yields the placeholder. -/
theorem important_vars_simple_only_witness :
    "f" ∉ important_var_names [("f", PyVal.other "function")] ∧
    format_execution_result ⟨"", "", [("f", PyVal.other "function")]⟩ = "No output" := by
  have h := important_vars_simple_only ⟨"", "", [("f", PyVal.other "function")]⟩
  refine ⟨h.1 (by simp) "f" (PyVal.other "function") (List.mem_cons_self _ _) rfl, ?_⟩
  refine h.2 ?_ rfl rfl
  intro k v hkv _
  rcases List.mem_cons.mp hkv with h' | h'
  · rw [show v = PyVal.other "function" from congrArg Prod.snd h']
    rfl
  · cases h'

/-- **C5** (confirmed).  `find_code_blocks` always returns a list (never a
missing-value sentinel — its return type is a list), each returned fragment
is trimmed of leading and trailing whitespace (it is a fixpoint of
`py_strip`), and on concrete inputs: two REPL-tagged fenced blocks yield
exactly the two inner fragments in document order, and text with no block
yields the empty list. -/
theorem find_code_blocks_spec :
    (∀ text : String, ∀ b ∈ find_code_blocks text, py_strip b = b) ∧
    find_code_blocks "intro\n```repl\nx = 1\n```\nbetween\n```repl\ny = 2\n```\nafter" =
      ["x = 1", "y = 2"] ∧
    find_code_blocks "no code blocks here" = [] := by
  refine ⟨?_, by decide, by decide⟩
  intro text b hb
  unfold find_code_blocks at hb
  obtain ⟨l, hl, rfl⟩ := List.mem_map.mp hb
  have h := scan_blocks_stripped text.data.length text.data l hl
  unfold py_strip py_strip_on
  rw [show (String.mk l).data = l from rfl, h]

/-- Witness for **C5**: a fragment returned for a concrete input is already
stripped. -/
theorem find_code_blocks_spec_witness : py_strip "x = 1" = "x = 1" :=
  find_code_blocks_spec.1 "```repl\nx = 1\n```" "x = 1" (by decide)

/-- **C6** (confirmed).  For every (fragment, result) pair whose formatted
result exceeds `max_character_length` characters, the message built by
`format_iteration` carries the result truncated to exactly
`max_character_length` characters (second conjunct) followed by the marker
`... + [n chars...]` where `n` is literally the formatted length minus
`max_character_length` — the true excess; a result not exceeding the limit
is carried unchanged (the `else` branch of the first conjunct). -/
theorem format_iteration_truncation (iteration : RLMIteration)
    (max_character_length i : Nat) (cb : CodeBlock)
    (hget : iteration.code_blocks.get? i = some cb) :
    ((format_iteration iteration max_character_length).get? (i + 1) =
      some { role := "user",
             content := "Code executed:\n```python\n" ++ cb.code ++
               "\n```\n\nREPL output:\n" ++
               (if (format_execution_result cb.result).length > max_character_length then
                  py_slice_to (format_execution_result cb.result) max_character_length ++
                    "... + [" ++
                    toString ((format_execution_result cb.result).length -
                      max_character_length) ++ " chars...]"
                else format_execution_result cb.result) }) ∧
    ((format_execution_result cb.result).length > max_character_length →
      (py_slice_to (format_execution_result cb.result) max_character_length).length =
        max_character_length) := by
  constructor
  · exact format_iteration_get_succ iteration max_character_length i cb hget
  · intro hgt
    show ((format_execution_result cb.result).data.take max_character_length).length =
      max_character_length
    rw [List.length_take]
    exact Nat.min_eq_left (Nat.le_of_lt hgt)

/-- Witness for **C6**: an 11-character formatted result truncated at 5
characters, with the marker stating the 6 omitted characters. -/
theorem format_iteration_truncation_witness :
    (format_iteration ⟨"resp", [⟨"x = 1", ⟨"abcdefghij", "", []⟩⟩]⟩ 5).get? 1 =
      some ⟨"user",
        "Code executed:\n```python\nx = 1\n```\n\nREPL output:\n\nabcd... + [6 chars...]"⟩ ∧
    (py_slice_to "\nabcdefghij" 5).length = 5 := by
  have h := format_iteration_truncation ⟨"resp", [⟨"x = 1", ⟨"abcdefghij", "", []⟩⟩]⟩
    5 0 ⟨"x = 1", ⟨"abcdefghij", "", []⟩⟩ rfl
  exact ⟨h.1, h.2 (by decide)⟩

/-- **C7** (confirmed).  `format_iteration` returns the raw model response
as the first message, tagged with the assistant role, followed by exactly
one user-tagged message per (fragment, result) pair in order, each holding
the fragment inside a fenced code block followed by its formatted (possibly
truncated) result text; an iteration with no code blocks yields exactly the
one assistant message. -/
theorem format_iteration_shape (iteration : RLMIteration) (max_character_length : Nat) :
    (format_iteration iteration max_character_length).length =
      iteration.code_blocks.length + 1 ∧
    (format_iteration iteration max_character_length).get? 0 =
      some { role := "assistant", content := iteration.response } ∧
    (∀ i cb, iteration.code_blocks.get? i = some cb →
      ∃ body,
        (format_iteration iteration max_character_length).get? (i + 1) =
          some { role := "user",
                 content := "Code executed:\n```python\n" ++ cb.code ++
                   "\n```\n\nREPL output:\n" ++ body }) ∧
    (iteration.code_blocks = [] →
      format_iteration iteration max_character_length =
        [{ role := "assistant", content := iteration.response }]) := by
  refine ⟨?_, rfl, ?_, ?_⟩
  · simp [format_iteration]
  · intro i cb hget
    exact ⟨_, format_iteration_get_succ iteration max_character_length i cb hget⟩
  · intro h
    simp [format_iteration, h]

/-- Witness for **C7**: the message list of a one-block iteration. -/
theorem format_iteration_shape_witness :
    (format_iteration ⟨"resp", [⟨"x = 1", ⟨"", "", []⟩⟩]⟩ 100).length = 2 ∧
    (format_iteration ⟨"resp", [⟨"x = 1", ⟨"", "", []⟩⟩]⟩ 100).get? 0 =
      some ⟨"assistant", "resp"⟩ ∧
    ∃ body, (format_iteration ⟨"resp", [⟨"x = 1", ⟨"", "", []⟩⟩]⟩ 100).get? 1 =
      some ⟨"user", "Code executed:\n```python\nx = 1\n```\n\nREPL output:\n" ++ body⟩ := by
  have h := format_iteration_shape ⟨"resp", [⟨"x = 1", ⟨"", "", []⟩⟩]⟩ 100
  exact ⟨h.1, h.2.1, h.2.2.1 0 ⟨"x = 1", ⟨"", "", []⟩⟩ rfl⟩

/-- **C8** (confirmed).  `PrimeREPL.__init__` raises (models as
`Except.error`) on `persistent=True` before any base-class initialization,
setup or execution, and succeeds on `persistent=False`, storing the flag. -/
theorem primerepl_rejects_persistent (lm_handler_address : Option (String × Nat))
    (context_payload : Option PyVal) (sandbox_name api_key : Option String) :
    primerepl_init lm_handler_address context_payload sandbox_name api_key true =
      Except.error
        "Persistent REPLs are currently not supported for environment: PrimeREPL" ∧
    ∃ env, primerepl_init lm_handler_address context_payload sandbox_name api_key false =
        Except.ok env ∧ env.persistent = false :=
  ⟨rfl, ⟨_, rfl, rfl⟩⟩

/-- **C9** (confirmed).  `convert_context_for_repl`: a non-empty list of
mappings whose first element has a `"content"` key yields the extracted
content values as the data component and no text component; a string yields
no data component and itself as the text component; a single mapping, the
empty list, a list whose first element is not a mapping, and a list whose
first mapping lacks `"content"` are all returned unchanged as the data
component. -/
theorem convert_context_cases :
    (∀ xs : List PyVal, first_has_content xs = true → (∀ m ∈ xs, is_dict m = true) →
      convert_context_for_repl (.list xs) =
        .ok (some (.list (xs.map content_of)), Option.none)) ∧
    (∀ s : String, convert_context_for_repl (.str s) = .ok (Option.none, some s)) ∧
    (∀ entries, convert_context_for_repl (.dict entries) =
      .ok (some (.dict entries), Option.none)) ∧
    (convert_context_for_repl (.list []) = .ok (some (.list []), Option.none)) ∧
    (∀ x rest, is_dict x = false →
      convert_context_for_repl (.list (x :: rest)) =
        .ok (some (.list (x :: rest)), Option.none)) ∧
    (∀ entries rest, (List.map Prod.fst entries).contains "content" = false →
      convert_context_for_repl (.list (.dict entries :: rest)) =
        .ok (some (.list (.dict entries :: rest)), Option.none)) := by
  refine ⟨?_, fun s => rfl, fun entries => rfl, rfl, ?_, ?_⟩
  · intro xs hfirst hdicts
    cases xs with
    | nil => simp [first_has_content] at hfirst
    | cons x rest =>
      obtain ⟨d, rfl⟩ := is_dict_eq (hdicts x (List.mem_cons_self _ _))
      have hcont : (List.map Prod.fst d).contains "content" = true := by
        simpa [first_has_content] using hfirst
      simp only [convert_context_for_repl, hcont, if_true]
      rw [mapM_content_ok _ hdicts]
  · intro x rest hx
    cases x <;> first | rfl | simp [is_dict] at hx
  · intro entries rest hcont
    simp only [convert_context_for_repl]
    rw [if_neg (show ¬(List.map Prod.fst entries).contains "content" = true by
      rw [hcont]; exact Bool.false_ne_true)]

/-- Witness for **C9**: a concrete two-record message history is converted
to its content strings. -/
theorem convert_context_cases_witness :
    convert_context_for_repl
        (.list [.dict [("role", .str "user"), ("content", .str "Hello")],
                .dict [("content", .str "Hi")]]) =
      .ok (some (.list [.str "Hello", .str "Hi"]), Option.none) := by
  have h := convert_context_cases.1
    [.dict [("role", .str "user"), ("content", .str "Hello")], .dict [("content", .str "Hi")]]
    rfl
    (by
      intro m hm
      rcases List.mem_cons.mp hm with rfl | hm'
      · rfl
      · rcases List.mem_cons.mp hm' with rfl | hm''
        · rfl
        · cases hm'')
  exact h

end RLM
